import Mathlib

/-!
# Asset-budget scripts: `cleanup-large-files.js` and `optimize-aggressive.js`

A shallow embedding of the two scripts under `src/scripts/` and the properties
their specification states about them.

Modelling conventions.

* A path is a string.  `join dir name` is `dir ++ "/" ++ name`, which is what
  Node's `path.join` returns for a normalised `dir` without trailing slash and
  a plain entry name as returned by `readdirSync`.
* `extname` follows the algorithm of Node's `path.posix.extname`;
  `toLowerCase` lowercases the ASCII letters (no non-ASCII character lowercases
  to a string that makes an extension equal to one of the names tested here).
* The directory tree handed to a walk is a `Listing`; the files reachable by
  path are a `Disk`, a partial map from path to content.  `diskOf` is the disk
  of a tree.
* Operations of the filesystem that can throw (`readdirSync`, `statSync`,
  `unlinkSync`) take a `Faults` oracle telling on which paths they throw; they
  also throw `ENOENT` on a missing path.  A thrown exception is the `error`
  case of `Except`, and an `async` function is modelled by the pair of its
  completion (resolved or rejected) and the disk it leaves.
* The image library (`sharp`) is an oracle, `Codec`.
* A generator is modelled by the list of the values it yields.  In
  `cleanup-large-files.js` the consumer only unlinks the path just yielded,
  which no later `readdirSync`/`statSync` of the walk looks at, so the lazy
  walk yields the list computed on the initial tree.  The loop of `main` in
  `optimize-aggressive.js` is modelled over the list that the generator yields.
* Sizes are natural numbers.  The test `webpSize < originalSize * 0.7` is
  modelled by `10 * webpSize < 7 * originalSize`; the two agree for sizes below
  2^40 bytes, where the double product is within 1/10 of the exact one.
* Console output is not modelled.
-/

namespace AssetBudget

/-! ## Strings and paths -/

abbrev Path := String

abbrev Bytes := List Nat

/-- Registers of the backwards scan in Node's `path.posix.extname`. -/
structure ExtScan where
  startDot : Int
  startPart : Int
  endIdx : Int
  matchedSlash : Bool
  preDotState : Int

/-- Loop of Node's `path.posix.extname`: the characters are visited from the
last one (index `i`) down to the first; reaching a separator after a
non-separator was seen ends the loop (`break`). -/
def extnameScan : List Char → Int → ExtScan → ExtScan
  | [], _, st => st
  | c :: cs, i, st =>
    if c = '/' then
      if !st.matchedSlash then { st with startPart := i + 1 }
      else extnameScan cs (i - 1) st
    else
      let st1 :=
        if st.endIdx = -1 then { st with matchedSlash := false, endIdx := i + 1 } else st
      let st2 :=
        if c = '.' then
          if st1.startDot = -1 then { st1 with startDot := i }
          else if st1.preDotState ≠ 1 then { st1 with preDotState := 1 }
          else st1
        else if st1.startDot ≠ -1 then { st1 with preDotState := -1 }
        else st1
      extnameScan cs (i - 1) st2

/-- Node's `path.extname` (POSIX flavour): the extension of the last path
component, from its last dot, or the empty string. -/
def extname (path : Path) : String :=
  let st := extnameScan path.data.reverse (path.data.length - 1) ⟨-1, 0, -1, true, 0⟩
  if st.startDot = -1 ∨ st.endIdx = -1 ∨ st.preDotState = 0 ∨
      (st.preDotState = 1 ∧ st.startDot = st.endIdx - 1 ∧ st.startDot = st.startPart + 1) then ""
  else ⟨(path.data.take st.endIdx.toNat).drop st.startDot.toNat⟩

/-- JavaScript `String.prototype.toLowerCase`, on ASCII letters. -/
def toLowerCase (s : String) : String := ⟨s.data.map Char.toLower⟩

/-- JavaScript `s.slice(1)`. -/
def slice1 (s : String) : String := ⟨s.data.drop 1⟩

/-- Replacement of the first occurrence of `pat` in a character list. -/
def replaceChars (pat rep : List Char) : List Char → List Char
  | [] => if pat.isEmpty then rep else []
  | c :: cs =>
    if pat.isPrefixOf (c :: cs) then rep ++ (c :: cs).drop pat.length
    else c :: replaceChars pat rep cs

/-- JavaScript `s.replace(pat, rep)` for a string pattern and a replacement
without `$`: only the first occurrence is replaced. -/
def replace (s pat rep : String) : String := ⟨replaceChars pat.data rep.data s.data⟩

/-- Node's `path.join(dir, name)` for a normalised `dir` and a plain name. -/
def join (dir : Path) (name : String) : Path := dir ++ "/" ++ name

/-! ## Filesystem -/

/-- Entries of a directory, in the order `readdirSync` returns them: regular
files with their content and subdirectories with their own entries. -/
inductive Listing where
  | nil : Listing
  | file (name : String) (bytes : Bytes) (rest : Listing) : Listing
  | dir (name : String) (children : Listing) (rest : Listing) : Listing

/-- Files by path: `none` when no file exists at the path. -/
abbrev Disk := Path → Option Bytes

/-- Content of the file at path `p` in the tree `l` rooted at `dir`. -/
def lookupFile (dir : Path) : Listing → Path → Option Bytes
  | .nil, _ => none
  | .file name bytes rest, p =>
    if join dir name = p then some bytes else lookupFile dir rest p
  | .dir name children rest, p =>
    match lookupFile (join dir name) children p with
    | some bytes => some bytes
    | none => lookupFile dir rest p

/-- Disk of the tree `l` rooted at `dir`. -/
def diskOf (dir : Path) (l : Listing) : Disk := fun p => lookupFile dir l p

/-- Paths of all the files of the tree `l` rooted at `dir`. -/
def filePaths (dir : Path) : Listing → List Path
  | .nil => []
  | .file name _ rest => join dir name :: filePaths dir rest
  | .dir name children rest => filePaths (join dir name) children ++ filePaths dir rest

/-- Disk after the file at `p` is removed. -/
def Disk.remove (d : Disk) (p : Path) : Disk := fun q => if q = p then none else d q

/-- Disk after `bytes` are written at `p`. -/
def Disk.write (d : Disk) (p : Path) (bytes : Bytes) : Disk :=
  fun q => if q = p then some bytes else d q

/-- JavaScript `existsSync`, for files. -/
def existsSync (d : Disk) (p : Path) : Bool := (d p).isSome

/-- Size of the file at `p`, 0 when there is none. -/
def fileSize (d : Disk) (p : Path) : Nat :=
  match d p with
  | some bytes => bytes.length
  | none => 0

/-- A thrown JavaScript error. -/
structure JsError where
  message : String
  deriving DecidableEq, Repr

/-- Paths on which a filesystem call throws (permission denied, vanished
entry, dangling link) although the tree lists them. -/
structure Faults where
  readdir : Path → Bool
  stat : Path → Bool
  unlink : Path → Bool

/-- No call throws. -/
def noFaults : Faults := ⟨fun _ => false, fun _ => false, fun _ => false⟩

/-- Node's `statSync(p).size`. -/
def statSync (F : Faults) (d : Disk) (p : Path) : Except JsError Nat :=
  if F.stat p then .error ⟨"EACCES"⟩
  else match d p with
    | none => .error ⟨"ENOENT"⟩
    | some bytes => .ok bytes.length

/-- Node's `unlinkSync(p)`. -/
def unlinkSync (F : Faults) (d : Disk) (p : Path) : Except JsError Disk :=
  if F.unlink p then .error ⟨"EACCES"⟩
  else match d p with
    | none => .error ⟨"ENOENT"⟩
    | some _ => .ok (d.remove p)

/-! ## `cleanup-large-files.js` -/

namespace Cleanup

/-- Loop `for (const file of files)` of `walk_directory`, with the recursive
call `yield* walk_directory(pathToFile)` unfolded: a throwing `statSync` leaves
the loop through the `catch` of the enclosing call, a throwing `readdirSync`
of a subdirectory is caught by the recursive call, which yields nothing. -/
def walk_entries (F : Faults) (dir : Path) : Listing → List Path
  | .nil => []
  | .file name _ rest =>
    let pathToFile := join dir name
    if F.stat pathToFile then []
    else pathToFile :: walk_entries F dir rest
  | .dir name children rest =>
    let pathToFile := join dir name
    if F.stat pathToFile then []
    else (if F.readdir pathToFile then [] else walk_entries F pathToFile children)
      ++ walk_entries F dir rest

/-- Generator `walk_directory(dir)` on a directory whose entries are `l`. -/
def walk_directory (F : Faults) (dir : Path) (l : Listing) : List Path :=
  if F.readdir dir then [] else walk_entries F dir l

/-- Function `is_image(file)`. -/
def is_image (file : Path) : Bool :=
  let ext := slice1 (toLowerCase (extname file))
  ["png", "jpg", "jpeg", "gif", "webp", "avif"].contains ext

/-- State of a deletion phase: the disk and the two accumulators. -/
structure Phase where
  disk : Disk
  removed : Nat
  saved : Nat

/-- The `try` block run for one file in both deletion phases; the `catch`
ignores the error, keeping what was done before the throw. -/
def remove_if_large (F : Faults) (maxSize : Nat) (st : Phase) (file : Path) : Phase :=
  match statSync F st.disk file with
  | .error _ => st
  | .ok size =>
    if size > maxSize then
      match unlinkSync F st.disk file with
      | .error _ => st
      | .ok disk => { disk := disk, removed := st.removed + 1, saved := st.saved + size }
    else st

/-- Function `remove_large_images(dir, maxSize)`: final disk and accumulators. -/
def remove_large_images (F : Faults) (dir : Path) (l : Listing) (maxSize : Nat) : Phase :=
  (walk_directory F dir l).foldl
    (fun st file => if !is_image file then st else remove_if_large F maxSize st file)
    { disk := diskOf dir l, removed := 0, saved := 0 }

/-- Function `remove_large_assets(dir, maxSize)`: final disk and accumulators. -/
def remove_large_assets (F : Faults) (dir : Path) (l : Listing) (maxSize : Nat) : Phase :=
  (walk_directory F dir l).foldl
    (fun st file => remove_if_large F maxSize st file)
    { disk := diskOf dir l, removed := 0, saved := 0 }

/-- One turn of the loop of a deletion phase whose filter is `g` (`is_image`
for `remove_large_images`, no filter for `remove_large_assets`). -/
def phase_step (F : Faults) (maxSize : Nat) (g : Path → Bool) (st : Phase) (file : Path) :
    Phase :=
  if g file then remove_if_large F maxSize st file else st

/-- Test that `remove_if_large` deletes `p` on disk `d`: neither `statSync`
nor `unlinkSync` throws on `p` and the file is larger than `maxSize`. -/
def deletes (F : Faults) (maxSize : Nat) (d : Disk) (p : Path) : Bool :=
  !F.stat p && !F.unlink p && decide (maxSize < fileSize d p)

end Cleanup

/-! ## `optimize-aggressive.js` -/

/-- Result of `image.metadata()`; a dimension that is absent is 0 (both are
falsy in the test `!meta.width || !meta.height`). -/
structure Meta where
  width : Nat
  height : Nat
  format : Option String
  deriving DecidableEq

/-- Constant `resize_config`. -/
structure ResizeConfig where
  width : Nat
  height : Nat
  fitInside : Bool
  withoutEnlargement : Bool

/-- Outcome of `toFile(output)`: the encoded bytes are written at the output
path, or the call rejects; the encoder writes the output path itself, so a
rejected call leaves the path untouched (`none`) or holding what was written
before the failure (`some`). -/
inductive WriteResult where
  | written (bytes : Bytes) : WriteResult
  | failed (err : JsError) (left : Option Bytes) : WriteResult
  deriving DecidableEq

/-- The image library: `sharp(input).metadata()` and
`sharp(input).resize(box)[format]({quality}).toFile(output)`. -/
structure Codec where
  metadata : Disk → Path → Except JsError Meta
  toFile : Disk → Path → ResizeConfig → String → Nat → Path → WriteResult

/-- Effect of a `toFile` outcome on the disk, with its completion. -/
def runWrite (d : Disk) (output : Path) : WriteResult → Except JsError Unit × Disk
  | .written bytes => (.ok (), d.write output bytes)
  | .failed err none => (.error err, d)
  | .failed err (some bytes) => (.error err, d.write output bytes)

/-- The `catch` of `convert_to_webp` and `optimize_image`: the error is
logged, the function completes normally, the disk stays as the throw left it. -/
def tryCatch (r : Except JsError Unit × Disk) : Except JsError Unit × Disk :=
  match r with
  | (.ok u, d) => (.ok u, d)
  | (.error _, d) => (.ok (), d)

namespace Optimize

/-- Constant `config`: the quality of each format. -/
def config (format : String) : Option Nat :=
  if format = "jpeg" then some 75
  else if format = "webp" then some 80
  else if format = "png" then some 80
  else if format = "gif" then some 80
  else if format = "avif" then some 80
  else none

/-- Constant `resize_config`. -/
def resize_config : ResizeConfig :=
  { width := 800, height := 800, fitInside := true, withoutEnlargement := true }

/-- Loop of `walk_directory`, as in `Cleanup.walk_entries` (the `catch` logs
the error instead of ignoring it). -/
def walk_entries (F : Faults) (dir : Path) : Listing → List Path
  | .nil => []
  | .file name _ rest =>
    let pathToFile := join dir name
    if F.stat pathToFile then []
    else pathToFile :: walk_entries F dir rest
  | .dir name children rest =>
    let pathToFile := join dir name
    if F.stat pathToFile then []
    else (if F.readdir pathToFile then [] else walk_entries F pathToFile children)
      ++ walk_entries F dir rest

/-- Generator `walk_directory(dir)` on a directory whose entries are `l`. -/
def walk_directory (F : Faults) (dir : Path) (l : Listing) : List Path :=
  if F.readdir dir then [] else walk_entries F dir l

/-- Function `is_image(file)`. -/
def is_image (file : Path) : Bool :=
  let ext := slice1 (toLowerCase (extname file))
  ["png", "jpg", "jpeg", "gif", "webp", "avif"].contains ext

/-- Expression `file.replace(ext, '.webp')` of `convert_to_webp`, with `ext`
the lowercased extension. -/
def webp_path (file : Path) : Path :=
  replace file (toLowerCase (extname file)) ".webp"

/-- Body of the `try` block of `convert_to_webp`. -/
def convert_to_webp_try (C : Codec) (F : Faults) (file : Path) (d : Disk) :
    Except JsError Unit × Disk :=
  let ext := toLowerCase (extname file)
  if ext = ".svg" then (.ok (), d)
  else
    let webpPath := replace file ext ".webp"
    if webpPath = file then (.ok (), d)
    else
      match C.metadata d file with
      | .error err => (.error err, d)
      | .ok info =>
        if info.width = 0 ∨ info.height = 0 then (.ok (), d)
        else
          match runWrite d webpPath (C.toFile d file resize_config "webp" 80 webpPath) with
          | (.error err, d1) => (.error err, d1)
          | (.ok _, d1) =>
            match statSync F d1 file with
            | .error err => (.error err, d1)
            | .ok originalSize =>
              match statSync F d1 webpPath with
              | .error err => (.error err, d1)
              | .ok webpSize =>
                if 10 * webpSize < 7 * originalSize then
                  match unlinkSync F d1 file with
                  | .error err => (.error err, d1)
                  | .ok d2 => (.ok (), d2)
                else
                  match unlinkSync F d1 webpPath with
                  | .error err => (.error err, d1)
                  | .ok d2 => (.ok (), d2)

/-- Function `convert_to_webp(file)`. -/
def convert_to_webp (C : Codec) (F : Faults) (file : Path) (d : Disk) :
    Except JsError Unit × Disk :=
  tryCatch (convert_to_webp_try C F file d)

/-- Body of the `try` block of `optimize_image`. -/
def optimize_image_try (C : Codec) (F : Faults) (file : Path) (d : Disk) :
    Except JsError Unit × Disk :=
  let ext := toLowerCase (extname file)
  if ext = ".svg" then (.ok (), d)
  else
    match C.metadata d file with
    | .error err => (.error err, d)
    | .ok info =>
      match info.format with
      | none => (.ok (), d)
      | some format =>
        if format = "" then (.ok (), d)
        else
          match config format with
          | none => (.ok (), d)
          | some quality =>
            match statSync F d file with
            | .error err => (.error err, d)
            | .ok _ =>
              match runWrite d file (C.toFile d file resize_config format quality file) with
              | (.error err, d1) => (.error err, d1)
              | (.ok _, d1) =>
                match statSync F d1 file with
                | .error err => (.error err, d1)
                | .ok _ =>
                  if ["png", "jpg", "jpeg"].contains format then convert_to_webp C F file d1
                  else (.ok (), d1)

/-- Function `optimize_image(file)`. -/
def optimize_image (C : Codec) (F : Faults) (file : Path) (d : Disk) :
    Except JsError Unit × Disk :=
  tryCatch (optimize_image_try C F file d)

/-- Loop `for (const file of walk_directory(fullPath))` of `main` over the
files the generator yields, from the count `n`: a rejection of
`optimize_image` would leave `main` at the `await`. -/
def optimize_files (C : Codec) (F : Faults) : List Path → Nat → Disk → Except JsError Nat × Disk
  | [], n, d => (.ok n, d)
  | file :: rest, n, d =>
    if is_image file then
      match optimize_image C F file d with
      | (.error err, d1) => (.error err, d1)
      | (.ok _, d1) => optimize_files C F rest (n + 1) d1
    else optimize_files C F rest n d

/-- Loop `for (const dir of dirs_to_optimize)` of `main`: each directory comes
with the answer of `existsSync` and the files its walk yields. -/
def optimize_dirs (C : Codec) (F : Faults) :
    List (Bool × List Path) → Nat → Disk → Except JsError Nat × Disk
  | [], n, d => (.ok n, d)
  | (present, files) :: rest, n, d =>
    if !present then optimize_dirs C F rest n d
    else
      match optimize_files C F files n d with
      | (.error err, d1) => (.error err, d1)
      | (.ok n1, d1) => optimize_dirs C F rest n1 d1

/-- Files that the two loops of `main` receive: the yields of the
directories for which `existsSync` is true, in order. -/
def files_of_dirs : List (Bool × List Path) → List Path
  | [] => []
  | (present, files) :: rest =>
    if present then files ++ files_of_dirs rest else files_of_dirs rest

end Optimize

/-! ## Scenarios -/

/-- Faults of a directory whose first entry is a dangling link: `statSync`
throws on it. -/
def staleLinkFaults : Faults :=
  ⟨fun _ => false, fun p => p = "static/images/stale-link", fun _ => false⟩

/-- Directory with a dangling link listed before an image. -/
def staleLinkTree : Listing :=
  .file "stale-link" [] (.file "b.png" [1, 2, 3] .nil)

/-- Faults under which `static/images/big.png` cannot be unlinked. -/
def lockedBigFaults : Faults :=
  ⟨fun _ => false, fun _ => false, fun p => p = "static/images/big.png"⟩

/-- Directory with a 3-byte image, a subdirectory with a 1-byte image, and a
4-byte text file. -/
def imagesTree : Listing :=
  .file "big.png" [1, 2, 3]
    (.dir "icons" (.file "dot.png" [7] .nil) (.file "notes.txt" [1, 2, 3, 4] .nil))

/-- Directory holding a single PNG of 150 KB. -/
def bigPngTree : Listing :=
  .file "photo.png" (List.replicate (150 * 1024) 0) .nil

/-- Disk holding a 10-byte `static/images/hero.png`. -/
def heroDisk : Disk :=
  fun p => if p = "static/images/hero.png" then some [1, 2, 3, 4, 5, 6, 7, 8, 9, 10] else none

/-- Disk holding `static/images/logo.svg` and `static/images/logo.webp`. -/
def logoDisk : Disk :=
  fun p => if p = "static/images/logo.svg" then some [60, 115, 118, 103]
    else if p = "static/images/logo.webp" then some [82, 73, 70, 70] else none

/-- Codec reading every file as a 1600x1200 PNG and encoding it to 3 bytes. -/
def smallWebpCodec : Codec :=
  { metadata := fun _ _ => .ok ⟨1600, 1200, some "png"⟩,
    toFile := fun _ _ _ _ _ _ => .written [1, 2, 3] }

/-- Codec whose `toFile` fails after it has truncated the output file. -/
def truncatingCodec : Codec :=
  { metadata := fun _ _ => .ok ⟨1600, 1200, some "png"⟩,
    toFile := fun _ _ _ _ _ _ => .failed ⟨"write failed"⟩ (some []) }

/-- Codec whose `toFile` fails before it writes anything. -/
def rejectingCodec : Codec :=
  { metadata := fun _ _ => .ok ⟨1600, 1200, some "png"⟩,
    toFile := fun _ _ _ _ _ _ => .failed ⟨"unsupported image"⟩ none }

/-- Faults under which `static/images/hero.png` cannot be unlinked. -/
def lockedHeroFaults : Faults :=
  ⟨fun _ => false, fun _ => false, fun p => p = "static/images/hero.png"⟩

/-! ## Disk and exception lemmas -/

theorem tryCatch_fst (r : Except JsError Unit × Disk) : (tryCatch r).1 = .ok () := by
  rcases r with ⟨_ | _, d⟩ <;> rfl

theorem tryCatch_snd (r : Except JsError Unit × Disk) : (tryCatch r).2 = r.2 := by
  rcases r with ⟨_ | _, d⟩ <;> rfl

theorem statSync_ok {F : Faults} {d : Disk} {p : Path} {bytes : Bytes}
    (hF : F.stat p = false) (hd : d p = some bytes) : statSync F d p = .ok bytes.length := by
  simp [statSync, hF, hd]

theorem unlinkSync_ok {F : Faults} {d : Disk} {p : Path} {bytes : Bytes}
    (hF : F.unlink p = false) (hd : d p = some bytes) : unlinkSync F d p = .ok (d.remove p) := by
  simp [unlinkSync, hF, hd]

@[simp] theorem Disk.write_same (d : Disk) (p : Path) (bytes : Bytes) :
    (d.write p bytes) p = some bytes := by
  simp [Disk.write]

theorem Disk.write_other (d : Disk) {p q : Path} (bytes : Bytes) (h : q ≠ p) :
    (d.write p bytes) q = d q := by
  simp [Disk.write, h]

@[simp] theorem Disk.remove_same (d : Disk) (p : Path) : (d.remove p) p = none := by
  simp [Disk.remove]

theorem Disk.remove_other (d : Disk) {p q : Path} (h : q ≠ p) : (d.remove p) q = d q := by
  simp [Disk.remove, h]

/-! ## The walk -/

namespace Cleanup

/-- The walk yields files of the tree, in the order of the tree. -/
theorem walk_entries_sublist (F : Faults) (l : Listing) :
    ∀ dir : Path, (walk_entries F dir l).Sublist (filePaths dir l) := by
  induction l with
  | nil => intro dir; simp [walk_entries, filePaths]
  | file name bytes rest ih =>
    intro dir
    unfold walk_entries filePaths
    by_cases hs : F.stat (join dir name) = true
    · simp [hs]
    · simp only [hs, if_false]
      exact (ih dir).cons₂ _
  | dir name children rest ihc ihr =>
    intro dir
    unfold walk_entries filePaths
    by_cases hs : F.stat (join dir name) = true
    · simp [hs]
    · simp only [hs, if_false]
      apply List.Sublist.append _ (ihr dir)
      by_cases hr : F.readdir (join dir name) = true
      · simp [hr]
      · simp only [hr, if_false]
        exact ihc _

theorem walk_directory_sublist (F : Faults) (dir : Path) (l : Listing) :
    (walk_directory F dir l).Sublist (filePaths dir l) := by
  unfold walk_directory
  split
  · exact List.nil_sublist _
  · exact walk_entries_sublist F l dir

/-- Every path the walk yields passed its `statSync`. -/
theorem walk_entries_stat (F : Faults) (l : Listing) :
    ∀ (dir p : Path), p ∈ walk_entries F dir l → F.stat p = false := by
  induction l with
  | nil => intro dir p hp; simp [walk_entries] at hp
  | file name bytes rest ih =>
    intro dir p hp
    by_cases hs : F.stat (join dir name) = true
    · simp [walk_entries, hs] at hp
    · simp only [walk_entries, hs, Bool.false_eq_true, if_false, List.mem_cons] at hp
      rcases hp with rfl | hp
      · simpa using hs
      · exact ih dir p hp
  | dir name children rest ihc ihr =>
    intro dir p hp
    by_cases hs : F.stat (join dir name) = true
    · simp [walk_entries, hs] at hp
    · simp only [walk_entries, hs, Bool.false_eq_true, if_false, List.mem_append] at hp
      rcases hp with hp | hp
      · by_cases hr : F.readdir (join dir name) = true
        · simp [hr] at hp
        · simp only [hr, Bool.false_eq_true, if_false] at hp
          exact ihc _ p hp
      · exact ihr dir p hp

theorem walk_directory_stat (F : Faults) (dir : Path) (l : Listing) (p : Path)
    (hp : p ∈ walk_directory F dir l) : F.stat p = false := by
  unfold walk_directory at hp
  split at hp
  · simp at hp
  · exact walk_entries_stat F l dir p hp

/-- When neither `readdirSync` nor `statSync` throws, the walk yields every
file of the tree. -/
theorem walk_entries_of_no_fault (F : Faults) (hs : ∀ p, F.stat p = false)
    (hr : ∀ p, F.readdir p = false) (l : Listing) :
    ∀ dir : Path, walk_entries F dir l = filePaths dir l := by
  induction l with
  | nil => intro dir; rfl
  | file name bytes rest ih => intro dir; simp [walk_entries, filePaths, hs, ih]
  | dir name children rest ihc ihr =>
    intro dir
    simp [walk_entries, filePaths, hs, hr, ihc, ihr]

theorem walk_directory_of_no_fault (F : Faults) (hs : ∀ p, F.stat p = false)
    (hr : ∀ p, F.readdir p = false) (dir : Path) (l : Listing) :
    walk_directory F dir l = filePaths dir l := by
  simp [walk_directory, hr, walk_entries_of_no_fault F hs hr]

end Cleanup

/-- Every file of the tree is on its disk. -/
theorem lookupFile_isSome_of_mem (l : Listing) :
    ∀ (dir p : Path), p ∈ filePaths dir l → (lookupFile dir l p).isSome = true := by
  induction l with
  | nil => intro dir p hp; simp [filePaths] at hp
  | file name bytes rest ih =>
    intro dir p hp
    unfold filePaths at hp
    unfold lookupFile
    by_cases h : join dir name = p
    · simp [h]
    · simp only [h, if_false]
      rcases List.mem_cons.mp hp with rfl | hp
      · exact absurd rfl h
      · exact ih dir p hp
  | dir name children rest ihc ihr =>
    intro dir p hp
    unfold filePaths at hp
    unfold lookupFile
    cases hc : lookupFile (join dir name) children p with
    | some bytes => simp
    | none =>
      rcases List.mem_append.mp hp with hp | hp
      · have := ihc _ p hp
        simp [hc] at this
      · simpa using ihr dir p hp

/-! ## The deletion phases -/

namespace Cleanup

theorem remove_if_large_eq (F : Faults) (maxSize : Nat) (st : Phase) (p : Path) :
    remove_if_large F maxSize st p =
      if deletes F maxSize st.disk p = true then
        { disk := st.disk.remove p, removed := st.removed + 1,
          saved := st.saved + fileSize st.disk p }
      else st := by
  unfold remove_if_large deletes statSync unlinkSync fileSize
  cases hs : F.stat p <;> cases hu : F.unlink p <;> cases hd : st.disk p <;>
    simp

theorem deletes_remove_same (F : Faults) (maxSize : Nat) (d : Disk) (p : Path) :
    deletes F maxSize (d.remove p) p = false := by
  simp [deletes, fileSize]

theorem phase_step_disk_other (F : Faults) (maxSize : Nat) (g : Path → Bool) (st : Phase)
    {p q : Path} (h : q ≠ p) : (phase_step F maxSize g st p).disk q = st.disk q := by
  unfold phase_step
  rw [remove_if_large_eq]
  split
  · split
    · exact Disk.remove_other _ h
    · rfl
  · rfl

/-- Disk left by the loop of a deletion phase over the yielded paths `W`. -/
theorem loop_disk (F : Faults) (maxSize : Nat) (g : Path → Bool) (W : List Path) :
    ∀ (st : Phase) (p : Path),
      (W.foldl (phase_step F maxSize g) st).disk p =
        if p ∈ W ∧ g p = true ∧ deletes F maxSize st.disk p = true then none else st.disk p := by
  induction W with
  | nil => intro st p; simp
  | cons q W ih =>
    intro st p
    rw [List.foldl_cons, ih]
    by_cases hpq : p = q
    · subst hpq
      unfold phase_step
      rw [remove_if_large_eq]
      by_cases hg : g p = true
      · by_cases hdel : deletes F maxSize st.disk p = true
        · simp [hg, hdel, deletes_remove_same]
        · simp [hg, hdel]
      · simp [hg]
    · have h1 : (phase_step F maxSize g st q).disk p = st.disk p :=
        phase_step_disk_other F maxSize g st hpq
      have h2 : deletes F maxSize (phase_step F maxSize g st q).disk p
          = deletes F maxSize st.disk p := by
        simp [deletes, fileSize, h1]
      simp [h1, h2, hpq]

/-- Accumulators left by the loop of a deletion phase over distinct paths. -/
theorem loop_counts (F : Faults) (maxSize : Nat) (g : Path → Bool) (W : List Path) :
    W.Nodup → ∀ (st : Phase),
      (W.foldl (phase_step F maxSize g) st).removed =
        st.removed + (W.filter (fun p => g p && deletes F maxSize st.disk p)).length ∧
      (W.foldl (phase_step F maxSize g) st).saved =
        st.saved + ((W.filter (fun p => g p && deletes F maxSize st.disk p)).map
          (fileSize st.disk)).sum := by
  induction W with
  | nil => intro _ st; simp
  | cons q W ih =>
    intro hnd st
    have hq : q ∉ W := (List.nodup_cons.mp hnd).1
    have hW : W.Nodup := (List.nodup_cons.mp hnd).2
    have hne : ∀ p ∈ W, p ≠ q := fun p hp h => hq (h ▸ hp)
    have hfilter :
        W.filter (fun p => g p && deletes F maxSize (phase_step F maxSize g st q).disk p)
          = W.filter (fun p => g p && deletes F maxSize st.disk p) := by
      apply List.filter_congr
      intro p hp
      have h1 : (phase_step F maxSize g st q).disk p = st.disk p :=
        phase_step_disk_other F maxSize g st (hne p hp)
      simp [deletes, fileSize, h1]
    have hmap : (W.filter (fun p => g p && deletes F maxSize st.disk p)).map
          (fileSize (phase_step F maxSize g st q).disk)
        = (W.filter (fun p => g p && deletes F maxSize st.disk p)).map (fileSize st.disk) := by
      apply List.map_congr_left
      intro p hp
      have hp' : p ∈ W := (List.mem_filter.mp hp).1
      have h1 : (phase_step F maxSize g st q).disk p = st.disk p :=
        phase_step_disk_other F maxSize g st (hne p hp')
      simp [fileSize, h1]
    rw [List.foldl_cons]
    obtain ⟨ih1, ih2⟩ := ih hW (phase_step F maxSize g st q)
    rw [ih1, ih2, hfilter, hmap]
    by_cases hc : (g q && deletes F maxSize st.disk q) = true
    · have hg : g q = true := by simp at hc; exact hc.1
      have hd : deletes F maxSize st.disk q = true := by simp at hc; exact hc.2
      have hstep : phase_step F maxSize g st q =
          { disk := st.disk.remove q, removed := st.removed + 1,
            saved := st.saved + fileSize st.disk q } := by
        unfold phase_step
        rw [remove_if_large_eq]
        simp [hg, hd]
      simp only [List.filter_cons, hc, if_true, hstep, List.length_cons, List.map_cons,
        List.sum_cons]
      constructor <;> omega
    · have hstep : phase_step F maxSize g st q = st := by
        unfold phase_step
        rw [remove_if_large_eq]
        by_cases hg : g q = true
        · have hd : ¬ deletes F maxSize st.disk q = true := by
            intro h; exact hc (by simp [hg, h])
          simp [hg, hd]
        · simp [hg]
      simp [List.filter_cons, hc, hstep]

theorem remove_large_images_eq (F : Faults) (dir : Path) (l : Listing) (maxSize : Nat) :
    remove_large_images F dir l maxSize =
      (walk_directory F dir l).foldl (phase_step F maxSize is_image)
        { disk := diskOf dir l, removed := 0, saved := 0 } := by
  unfold remove_large_images
  congr 1
  funext st file
  unfold phase_step
  cases is_image file <;> simp

theorem remove_large_assets_eq (F : Faults) (dir : Path) (l : Listing) (maxSize : Nat) :
    remove_large_assets F dir l maxSize =
      (walk_directory F dir l).foldl (phase_step F maxSize (fun _ => true))
        { disk := diskOf dir l, removed := 0, saved := 0 } := by
  unfold remove_large_assets
  congr 1

/-- Disk left by `remove_large_images`. -/
theorem remove_large_images_disk (F : Faults) (dir : Path) (l : Listing) (maxSize : Nat)
    (p : Path) :
    (remove_large_images F dir l maxSize).disk p =
      if p ∈ walk_directory F dir l ∧ is_image p = true ∧
          deletes F maxSize (diskOf dir l) p = true then none
      else diskOf dir l p := by
  rw [remove_large_images_eq, loop_disk]

/-- Disk left by `remove_large_assets`. -/
theorem remove_large_assets_disk (F : Faults) (dir : Path) (l : Listing) (maxSize : Nat)
    (p : Path) :
    (remove_large_assets F dir l maxSize).disk p =
      if p ∈ walk_directory F dir l ∧ deletes F maxSize (diskOf dir l) p = true then none
      else diskOf dir l p := by
  rw [remove_large_assets_eq, loop_disk]
  simp

/-- Accumulators of a deletion phase against the files missing from the disk
it leaves, on a tree whose files have distinct paths. -/
theorem phase_account (F : Faults) (dir : Path) (l : Listing) (maxSize : Nat)
    (g : Path → Bool) (hnd : (filePaths dir l).Nodup) :
    ((walk_directory F dir l).foldl (phase_step F maxSize g)
        { disk := diskOf dir l, removed := 0, saved := 0 }).removed =
      ((filePaths dir l).filter (fun p =>
        (((walk_directory F dir l).foldl (phase_step F maxSize g)
          { disk := diskOf dir l, removed := 0, saved := 0 }).disk p).isNone)).length ∧
    ((walk_directory F dir l).foldl (phase_step F maxSize g)
        { disk := diskOf dir l, removed := 0, saved := 0 }).saved =
      (((filePaths dir l).filter (fun p =>
        (((walk_directory F dir l).foldl (phase_step F maxSize g)
          { disk := diskOf dir l, removed := 0, saved := 0 }).disk p).isNone)).map
        (fileSize (diskOf dir l))).sum := by
  have hsub := walk_directory_sublist F dir l
  have hW : (walk_directory F dir l).Nodup := hnd.sublist hsub
  have hperm : List.Perm
      ((filePaths dir l).filter (fun p =>
        (((walk_directory F dir l).foldl (phase_step F maxSize g)
          { disk := diskOf dir l, removed := 0, saved := 0 }).disk p).isNone))
      ((walk_directory F dir l).filter
        (fun p => g p && deletes F maxSize (diskOf dir l) p)) := by
    rw [List.perm_ext_iff_of_nodup (hnd.filter _) (hW.filter _)]
    intro p
    simp only [List.mem_filter, loop_disk]
    constructor
    · rintro ⟨hp, hnone⟩
      have hsome : (diskOf dir l p).isSome = true := lookupFile_isSome_of_mem l dir p hp
      by_cases hc : p ∈ walk_directory F dir l ∧ g p = true ∧
          deletes F maxSize (diskOf dir l) p = true
      · exact ⟨hc.1, by simp [hc.2.1, hc.2.2]⟩
      · rw [if_neg hc] at hnone
        rw [Option.isNone_iff_eq_none] at hnone
        rw [hnone] at hsome
        simp at hsome
    · rintro ⟨hp, hc⟩
      have hg : g p = true := by simp at hc; exact hc.1
      have hd : deletes F maxSize (diskOf dir l) p = true := by simp at hc; exact hc.2
      refine ⟨hsub.subset hp, ?_⟩
      simp [hp, hg, hd]
  obtain ⟨h1, h2⟩ := loop_counts F maxSize g (walk_directory F dir l) hW
    { disk := diskOf dir l, removed := 0, saved := 0 }
  constructor
  · rw [h1, hperm.length_eq]
    simp
  · rw [h2, (hperm.map _).sum_eq]
    simp

end Cleanup

/-- C3, as stated, fails: with `maxSize = 2`, the 3-byte image
`static/images/big.png` whose `unlinkSync` throws is still on the disk after
`remove_large_assets` and after `remove_large_images`. -/
theorem remove_large_leaves_locked_file :
    diskOf "static/images" imagesTree "static/images/big.png" = some [1, 2, 3] ∧
    Cleanup.is_image "static/images/big.png" = true ∧
    (Cleanup.remove_large_assets lockedBigFaults "static/images" imagesTree 2).disk
      "static/images/big.png" = some [1, 2, 3] ∧
    (Cleanup.remove_large_images lockedBigFaults "static/images" imagesTree 2).disk
      "static/images/big.png" = some [1, 2, 3] := by
  decide

/-- C3, amended: a file larger than `maxSize` that the walk yields and whose
`unlinkSync` does not throw no longer exists after `remove_large_assets`, nor,
when it is an image, after `remove_large_images`. -/
theorem remove_large_deletes_reached (F : Faults) (dir : Path) (l : Listing) (maxSize : Nat)
    (p : Path) (bytes : Bytes)
    (hp : p ∈ Cleanup.walk_directory F dir l)
    (hb : diskOf dir l p = some bytes)
    (hsz : maxSize < bytes.length)
    (hu : F.unlink p = false) :
    (Cleanup.remove_large_assets F dir l maxSize).disk p = none ∧
    (Cleanup.is_image p = true →
      (Cleanup.remove_large_images F dir l maxSize).disk p = none) := by
  have hs : F.stat p = false := Cleanup.walk_directory_stat F dir l p hp
  have hd : Cleanup.deletes F maxSize (diskOf dir l) p = true := by
    simp [Cleanup.deletes, hs, hu, fileSize, hb, hsz]
  constructor
  · rw [Cleanup.remove_large_assets_disk]
    simp [hp, hd]
  · intro himg
    rw [Cleanup.remove_large_images_disk]
    simp [hp, hd, himg]

/-- Witness of C3, amended: without faults and with `maxSize = 2`, the 3-byte
`static/images/big.png` is yielded and is gone after either phase. -/
theorem remove_large_deletes_reached_witness :
    "static/images/big.png" ∈ Cleanup.walk_directory noFaults "static/images" imagesTree ∧
    diskOf "static/images" imagesTree "static/images/big.png" = some [1, 2, 3] ∧
    (Cleanup.remove_large_assets noFaults "static/images" imagesTree 2).disk
      "static/images/big.png" = none ∧
    (Cleanup.is_image "static/images/big.png" = true →
      (Cleanup.remove_large_images noFaults "static/images" imagesTree 2).disk
        "static/images/big.png" = none) :=
  ⟨by decide, by decide,
    remove_large_deletes_reached noFaults "static/images" imagesTree 2 "static/images/big.png"
      [1, 2, 3] (by decide) (by decide) (by decide) rfl⟩

/-- C4: a file whose size is at most `maxSize` (equality included) is on
the disk with the same content after `remove_large_images` and after
`remove_large_assets`, whatever calls throw. -/
theorem remove_large_keeps_small (F : Faults) (dir : Path) (l : Listing) (maxSize : Nat)
    (p : Path) (bytes : Bytes)
    (hb : diskOf dir l p = some bytes)
    (hsz : bytes.length ≤ maxSize) :
    (Cleanup.remove_large_images F dir l maxSize).disk p = some bytes ∧
    (Cleanup.remove_large_assets F dir l maxSize).disk p = some bytes := by
  have hd : Cleanup.deletes F maxSize (diskOf dir l) p = false := by
    simp [Cleanup.deletes, fileSize, hb, hsz]
  constructor
  · rw [Cleanup.remove_large_images_disk]
    simp [hd, hb]
  · rw [Cleanup.remove_large_assets_disk]
    simp [hd, hb]

/-- Witness of C4: with `maxSize = 1`, the 1-byte `static/images/icons/dot.png`
keeps its content through both phases. -/
theorem remove_large_keeps_small_witness :
    diskOf "static/images" imagesTree "static/images/icons/dot.png" = some [7] ∧
    (Cleanup.remove_large_images noFaults "static/images" imagesTree 1).disk
      "static/images/icons/dot.png" = some [7] ∧
    (Cleanup.remove_large_assets noFaults "static/images" imagesTree 1).disk
      "static/images/icons/dot.png" = some [7] :=
  ⟨by decide,
    remove_large_keeps_small noFaults "static/images" imagesTree 1 "static/images/icons/dot.png"
      [7] (by decide) (by decide)⟩

/-- C9: on a tree whose files have distinct paths, when a deletion phase
finishes `removed` is the number of files of the tree that are no longer on the
disk and `saved` is the sum of the sizes those files had before the phase. -/
theorem removed_saved_account (F : Faults) (dir : Path) (l : Listing) (maxSize : Nat)
    (hnd : (filePaths dir l).Nodup) :
    ((Cleanup.remove_large_images F dir l maxSize).removed =
        ((filePaths dir l).filter (fun p =>
          ((Cleanup.remove_large_images F dir l maxSize).disk p).isNone)).length ∧
      (Cleanup.remove_large_images F dir l maxSize).saved =
        (((filePaths dir l).filter (fun p =>
          ((Cleanup.remove_large_images F dir l maxSize).disk p).isNone)).map
            (fileSize (diskOf dir l))).sum) ∧
    ((Cleanup.remove_large_assets F dir l maxSize).removed =
        ((filePaths dir l).filter (fun p =>
          ((Cleanup.remove_large_assets F dir l maxSize).disk p).isNone)).length ∧
      (Cleanup.remove_large_assets F dir l maxSize).saved =
        (((filePaths dir l).filter (fun p =>
          ((Cleanup.remove_large_assets F dir l maxSize).disk p).isNone)).map
            (fileSize (diskOf dir l))).sum) := by
  constructor
  · rw [Cleanup.remove_large_images_eq]
    exact Cleanup.phase_account F dir l maxSize _ hnd
  · rw [Cleanup.remove_large_assets_eq]
    exact Cleanup.phase_account F dir l maxSize _ hnd

/-- Witness of C9: a single PNG of 150 KB under a threshold of 100 KB gives
`removed = 1` and `saved = 150 * 1024`. -/
theorem removed_saved_account_witness :
    (filePaths "static/images" bigPngTree).Nodup ∧
    Cleanup.is_image "static/images/photo.png" = true ∧
    fileSize (diskOf "static/images" bigPngTree) "static/images/photo.png" = 150 * 1024 ∧
    (Cleanup.remove_large_images noFaults "static/images" bigPngTree (100 * 1024)).removed = 1 ∧
    (Cleanup.remove_large_images noFaults "static/images" bigPngTree (100 * 1024)).saved
      = 150 * 1024 := by
  have hpaths : filePaths "static/images" bigPngTree = ["static/images/photo.png"] := by decide
  have hnd : (filePaths "static/images" bigPngTree).Nodup := by rw [hpaths]; simp
  have hj : join "static/images" "photo.png" = "static/images/photo.png" := by decide
  have himg : Cleanup.is_image "static/images/photo.png" = true := by decide
  have hsize : fileSize (diskOf "static/images" bigPngTree) "static/images/photo.png"
      = 150 * 1024 := by
    have hl : diskOf "static/images" bigPngTree "static/images/photo.png"
        = some (List.replicate (150 * 1024) 0) := by
      show lookupFile "static/images" bigPngTree "static/images/photo.png" = _
      unfold bigPngTree
      simp only [lookupFile, hj, if_true]
    unfold fileSize
    rw [hl]
    exact List.length_replicate _ _
  have hwalk : "static/images/photo.png" ∈
      Cleanup.walk_directory noFaults "static/images" bigPngTree := by decide
  have hdisk : (Cleanup.remove_large_images noFaults "static/images" bigPngTree
      (100 * 1024)).disk "static/images/photo.png" = none := by
    have hd : Cleanup.deletes noFaults (100 * 1024) (diskOf "static/images" bigPngTree)
        "static/images/photo.png" = true := by
      simp [Cleanup.deletes, noFaults, hsize]
    rw [Cleanup.remove_large_images_disk, if_pos ⟨hwalk, himg, hd⟩]
  have h := (removed_saved_account noFaults "static/images" bigPngTree (100 * 1024) hnd).1
  rw [hpaths] at h
  simp only [List.filter_cons, hdisk, Option.isNone_none, if_true, List.filter_nil,
    List.length_singleton, List.map_cons, List.map_nil, List.sum_cons, List.sum_nil, hsize,
    Nat.add_zero] at h
  exact ⟨hnd, himg, hsize, h.1, h.2⟩

/-! ## The walk on a failing entry -/

/-- C5 at a failing input: in a directory that lists a dangling link before
`b.png`, the throw of `statSync` on the link ends the walk, which yields
nothing, although `b.png` is a file of the directory on which no call throws;
both copies of `walk_directory` behave so. -/
theorem walk_directory_drops_later_siblings :
    Cleanup.walk_directory staleLinkFaults "static/images" staleLinkTree = [] ∧
    Optimize.walk_directory staleLinkFaults "static/images" staleLinkTree = [] ∧
    "static/images/b.png" ∈ filePaths "static/images" staleLinkTree ∧
    staleLinkFaults.stat "static/images/b.png" = false ∧
    staleLinkFaults.readdir "static/images" = false := by
  decide

/-! ## The classifier -/

/-- Once the scan of `extname` has met the last dot and the end of the last
component, the rest of the scan keeps both. -/
theorem extnameScan_keeps (cs : List Char) :
    ∀ (i : Int) (st : ExtScan), st.startDot ≠ -1 → st.endIdx ≠ -1 →
      (extnameScan cs i st).startDot = st.startDot ∧
      (extnameScan cs i st).endIdx = st.endIdx := by
  induction cs with
  | nil => intro i st _ _; exact ⟨rfl, rfl⟩
  | cons c cs ih =>
    intro i st hd he
    unfold extnameScan
    by_cases hc : c = '/'
    · by_cases hm : st.matchedSlash = true
      · simp only [hc, if_true, hm, Bool.not_true, Bool.false_eq_true, if_false]
        exact ih _ _ hd he
      · simp [hc, hm]
    · simp only [hc, if_false, he]
      by_cases hdot : c = '.'
      · simp only [hdot, if_true, hd, if_false]
        by_cases hp : st.preDotState = 1
        · simp only [hp, ne_eq, not_true_eq_false, if_false]
          exact ih _ _ hd he
        · simp only [hp, ne_eq, not_false_eq_true, if_true]
          exact ih _ { st with preDotState := 1 } hd he
      · simp only [hdot, if_false, hd, ne_eq, not_false_eq_true, if_true]
        exact ih _ { st with preDotState := -1 } hd he

theorem extnameScan_svg (cs : List Char) (i : Int) (hi : i + 1 ≠ -1) :
    extnameScan ('g' :: 'v' :: 's' :: '.' :: cs) i ⟨-1, 0, -1, true, 0⟩ =
      extnameScan cs (i - 1 - 1 - 1 - 1) ⟨i - 1 - 1 - 1, 0, i + 1, false, 0⟩ := by
  simp [extnameScan, hi]


/-- Once the scan of `extname` has met a character before the last dot, the
rest of the scan does not reset that register. -/
theorem extnameScan_preDot (cs : List Char) :
    ∀ (i : Int) (st : ExtScan), st.startDot ≠ -1 → st.endIdx ≠ -1 → st.preDotState ≠ 0 →
      (extnameScan cs i st).preDotState ≠ 0 := by
  induction cs with
  | nil => intro i st _ _ hp; exact hp
  | cons c cs ih =>
    intro i st hd he hp
    unfold extnameScan
    by_cases hc : c = '/'
    · by_cases hm : st.matchedSlash = true
      · simp only [hc, if_true, hm, Bool.not_true, Bool.false_eq_true, if_false]
        exact ih _ _ hd he hp
      · simp [hc, hm, hp]
    · simp only [hc, if_false, he]
      by_cases hdot : c = '.'
      · simp only [hdot, if_true, hd, if_false]
        by_cases hp1 : st.preDotState = 1
        · simp only [hp1, ne_eq, not_true_eq_false, if_false]
          exact ih _ _ hd he hp
        · simp only [hp1, ne_eq, not_false_eq_true, if_true]
          exact ih _ { st with preDotState := 1 } hd he (by simp)
      · simp only [hdot, if_false, hd, ne_eq, not_false_eq_true, if_true]
        exact ih _ { st with preDotState := -1 } hd he (by simp)

/-- Scan of characters that are neither a dot nor a separator, before the
last dot has been met: the registers stay. -/
theorem extnameScan_skip (r rest : List Char) :
    ∀ (i : Int) (st : ExtScan), (∀ c ∈ r, c ≠ '.' ∧ c ≠ '/') → st.startDot = -1 →
      st.endIdx ≠ -1 →
      extnameScan (r ++ rest) i st = extnameScan rest (i - (r.length : Int)) st := by
  induction r with
  | nil => intro i st _ _ _; simp
  | cons c r ih =>
    intro i st hr hd he
    have hc := hr c (List.mem_cons_self _ _)
    have hr' : ∀ x ∈ r, x ≠ '.' ∧ x ≠ '/' := fun x hx => hr x (List.mem_cons_of_mem _ hx)
    rw [List.cons_append, extnameScan]
    simp only [hc.2, if_false, he, hc.1, hd, ne_eq, not_true_eq_false]
    rw [ih (i - 1) st hr' hd he]
    congr 1
    simp only [List.length_cons, Nat.cast_add, Nat.cast_one]
    omega

/-- Scan of `ext` reversed, then the dot, from the initial registers. -/
theorem extnameScan_ext (r B : List Char) (i : Int) (hi : 0 ≤ i - (r.length : Int))
    (hr : ∀ c ∈ r, c ≠ '.' ∧ c ≠ '/') :
    extnameScan (r ++ '.' :: B) i ⟨-1, 0, -1, true, 0⟩ =
      extnameScan B (i - (r.length : Int) - 1) ⟨i - (r.length : Int), 0, i + 1, false, 0⟩ := by
  cases r with
  | nil =>
    simp only [List.nil_append, List.length_nil, Nat.cast_zero, sub_zero]
    rw [extnameScan]
    simp
  | cons c r =>
    have hc := hr c (List.mem_cons_self _ _)
    have hr' : ∀ x ∈ r, x ≠ '.' ∧ x ≠ '/' := fun x hx => hr x (List.mem_cons_of_mem _ hx)
    simp only [List.length_cons, Nat.cast_add, Nat.cast_one] at hi
    have he : i + 1 ≠ -1 := by omega
    rw [List.cons_append, extnameScan]
    simp only [hc.2, if_false, if_true, hc.1, ne_eq, not_true_eq_false]
    rw [extnameScan_skip r _ (i - 1) ⟨-1, 0, i + 1, false, 0⟩ hr' rfl he]
    rw [extnameScan]
    have hd : i - 1 - (r.length : Int) ≠ -1 := by omega
    simp only [Char.reduceEq, if_false, he, if_true]
    congr 1
    · simp only [List.length_cons, Nat.cast_add, Nat.cast_one]; omega
    · simp only [List.length_cons, Nat.cast_add, Nat.cast_one]
      congr 1
      omega


theorem data_dot_ext (base ext : String) :
    (base ++ "." ++ ext).data = base.data ++ '.' :: ext.data := by
  simp [String.data_append]

/-- Registers at the end of the scan of `base ++ "." ++ ext`, when `ext` has
neither dot nor separator: the last dot is the one before `ext`. -/
theorem extnameScan_dot_ext (base ext : String)
    (hext : ∀ c ∈ ext.data, c ≠ '.' ∧ c ≠ '/') :
    extnameScan (base.data ++ '.' :: ext.data).reverse
        (((base.data ++ '.' :: ext.data).length : Int) - 1) ⟨-1, 0, -1, true, 0⟩ =
      extnameScan base.data.reverse ((base.data.length : Int) - 1)
        ⟨(base.data.length : Int), 0, (base.data.length : Int) + 1 + ext.data.length, false, 0⟩ := by
  have hrev : (base.data ++ '.' :: ext.data).reverse
      = ext.data.reverse ++ '.' :: base.data.reverse := by simp
  have hr : ∀ c ∈ ext.data.reverse, c ≠ '.' ∧ c ≠ '/' :=
    fun c hc => hext c (List.mem_reverse.mp hc)
  have hlen : ((base.data ++ '.' :: ext.data).length : Int)
      = (base.data.length : Int) + 1 + ext.data.length := by
    simp only [List.length_append, List.length_cons, Nat.cast_add, Nat.cast_one]; omega
  rw [hrev, hlen, extnameScan_ext _ _ _ (by simp only [List.length_reverse]; omega) hr]
  simp only [List.length_reverse]
  congr 1
  · omega
  · congr 1 <;> omega

theorem slice_dot_ext (base ext : String) :
    ((base.data ++ '.' :: ext.data).take
        ((base.data.length : Int) + 1 + ext.data.length).toNat).drop
      (base.data.length : Int).toNat = '.' :: ext.data := by
  have h1 : ((base.data.length : Int) + 1 + ext.data.length).toNat
      = (base.data ++ '.' :: ext.data).length := by
    simp only [List.length_append, List.length_cons]; omega
  rw [h1, List.take_length, Int.toNat_ofNat, List.drop_left]

/-- Extension of `base ++ "." ++ ext` when `ext` has neither dot nor
separator: `"." ++ ext`, or nothing. -/
theorem extname_dot_ext_cases (base ext : String)
    (hext : ∀ c ∈ ext.data, c ≠ '.' ∧ c ≠ '/') :
    extname (base ++ "." ++ ext) = "" ∨ extname (base ++ "." ++ ext) = "." ++ ext := by
  obtain ⟨hsd, hse⟩ := extnameScan_keeps base.data.reverse ((base.data.length : Int) - 1)
    ⟨(base.data.length : Int), 0, (base.data.length : Int) + 1 + ext.data.length, false, 0⟩
    (by show (base.data.length : Int) ≠ -1; omega)
    (by show (base.data.length : Int) + 1 + ext.data.length ≠ -1; omega)
  unfold extname
  rw [data_dot_ext, extnameScan_dot_ext base ext hext]
  simp only [hsd, hse]
  split
  · left; rfl
  · right
    rw [slice_dot_ext]
    apply String.ext
    simp [String.data_append]

/-- Extension of `base ++ "." ++ ext` when `base` ends in a character that
is not a separator and `ext` is not empty and has neither dot nor separator. -/
theorem extname_dot_ext (base ext : String) (c : Char)
    (hbase : base.data.getLast? = some c) (hc : c ≠ '/')
    (hext : ∀ x ∈ ext.data, x ≠ '.' ∧ x ≠ '/') (hne : ext.data ≠ []) :
    extname (base ++ "." ++ ext) = "." ++ ext := by
  have hB : ∃ cs, base.data.reverse = c :: cs := by
    cases hrev : base.data.reverse with
    | nil =>
      have : base.data = [] := by simpa using hrev
      rw [this] at hbase; simp at hbase
    | cons x cs =>
      have : base.data = cs.reverse ++ [x] := by
        have := congrArg List.reverse hrev
        simpa using this
      rw [this] at hbase
      simp at hbase
      exact ⟨cs, by rw [hbase]⟩
  obtain ⟨cs, hcs⟩ := hB
  have hpos : 0 < ext.data.length := List.length_pos.mpr hne
  have hj : (base.data.length : Int) ≠ -1 := by omega
  have he : (base.data.length : Int) + 1 + ext.data.length ≠ -1 := by omega
  have hstep : extnameScan base.data.reverse ((base.data.length : Int) - 1)
      ⟨(base.data.length : Int), 0, (base.data.length : Int) + 1 + ext.data.length, false, 0⟩
      = extnameScan cs ((base.data.length : Int) - 1 - 1)
        ⟨(base.data.length : Int), 0, (base.data.length : Int) + 1 + ext.data.length, false,
          if c = '.' then 1 else -1⟩ := by
    rw [hcs, extnameScan]
    simp only [hc, if_false, he]
    by_cases hdot : c = '.'
    · simp only [hdot, if_true, hj, if_false, ne_eq, zero_ne_one, not_false_eq_true]
    · simp only [hdot, if_false, hj, ne_eq, not_false_eq_true, if_true]
  have hpre0 : (if c = '.' then (1 : Int) else -1) ≠ 0 := by split <;> decide
  obtain ⟨hsd, hse⟩ := extnameScan_keeps cs ((base.data.length : Int) - 1 - 1)
    ⟨(base.data.length : Int), 0, (base.data.length : Int) + 1 + ext.data.length, false,
      if c = '.' then 1 else -1⟩ hj he
  have hpre := extnameScan_preDot cs ((base.data.length : Int) - 1 - 1)
    ⟨(base.data.length : Int), 0, (base.data.length : Int) + 1 + ext.data.length, false,
      if c = '.' then 1 else -1⟩ hj he hpre0
  unfold extname
  rw [data_dot_ext, extnameScan_dot_ext base ext hext, hstep]
  simp only [hsd, hse]
  have hcond : ¬ ((base.data.length : Int) = -1 ∨
      (base.data.length : Int) + 1 + ext.data.length = -1 ∨
      (extnameScan cs ((base.data.length : Int) - 1 - 1)
        ⟨(base.data.length : Int), 0, (base.data.length : Int) + 1 + ext.data.length, false,
          if c = '.' then 1 else -1⟩).preDotState = 0 ∨
      ((extnameScan cs ((base.data.length : Int) - 1 - 1)
        ⟨(base.data.length : Int), 0, (base.data.length : Int) + 1 + ext.data.length, false,
          if c = '.' then 1 else -1⟩).preDotState = 1 ∧
        (base.data.length : Int) = (base.data.length : Int) + 1 + ext.data.length - 1 ∧
        (base.data.length : Int) = (extnameScan cs ((base.data.length : Int) - 1 - 1)
        ⟨(base.data.length : Int), 0, (base.data.length : Int) + 1 + ext.data.length, false,
          if c = '.' then 1 else -1⟩).startPart + 1)) := by
    rintro (h | h | h | ⟨_, h, _⟩)
    · exact hj h
    · exact he h
    · exact hpre h
    · omega
  rw [if_neg hcond, slice_dot_ext]
  apply String.ext
  simp [String.data_append]

/-- The extension of a path that ends in `.svg` is `.svg`, or empty when
`.svg` is the whole last component. -/
theorem extname_svg_suffix (base : String) :
    extname (base ++ ".svg") = "" ∨ extname (base ++ ".svg") = ".svg" := by
  have hdata : (base ++ ".svg").data = base.data ++ ['.', 's', 'v', 'g'] := by
    rw [String.data_append]
  have hrev : (base.data ++ ['.', 's', 'v', 'g']).reverse
      = 'g' :: 'v' :: 's' :: '.' :: base.data.reverse := by simp
  have hlen : ((base.data ++ ['.', 's', 'v', 'g']).length : Int) = base.data.length + 4 := by
    simp
  have hi : ((base.data.length : Int) + 4 - 1) + 1 ≠ -1 := by omega
  obtain ⟨hsd, hse⟩ := extnameScan_keeps base.data.reverse
    ((base.data.length : Int) + 4 - 1 - 1 - 1 - 1 - 1)
    ⟨(base.data.length : Int) + 4 - 1 - 1 - 1 - 1, 0, (base.data.length : Int) + 4 - 1 + 1, false, 0⟩
    (by show (base.data.length : Int) + 4 - 1 - 1 - 1 - 1 ≠ -1; omega)
    (by show (base.data.length : Int) + 4 - 1 + 1 ≠ -1; omega)
  unfold extname
  rw [hdata, hrev, hlen, extnameScan_svg _ _ hi]
  simp only [hsd, hse]
  split
  · left; rfl
  · right
    have h1 : ((base.data.length : Int) + 4 - 1 + 1).toNat = base.data.length + 4 := by omega
    have h2 : ((base.data.length : Int) + 4 - 1 - 1 - 1 - 1).toNat = base.data.length := by omega
    rw [h1, h2]
    have h3 : (base.data ++ ['.', 's', 'v', 'g']).take (base.data.length + 4)
        = base.data ++ ['.', 's', 'v', 'g'] := by
      apply List.take_of_length_le
      simp
    rw [h3, List.drop_left]

theorem is_image_svg_suffix (base : String) : Cleanup.is_image (base ++ ".svg") = false := by
  rcases extname_svg_suffix base with h | h <;>
    · simp only [Cleanup.is_image, h]
      decide


theorem is_image_of_extname (path ext : String) (h : extname path = "." ++ ext) :
    Cleanup.is_image path =
      ["png", "jpg", "jpeg", "gif", "webp", "avif"].contains ⟨ext.data.map Char.toLower⟩ := by
  have hs : slice1 (toLowerCase ("." ++ ext)) = ⟨ext.data.map Char.toLower⟩ := by
    apply String.ext
    simp [slice1, toLowerCase, String.data_append]
  simp only [Cleanup.is_image, h, hs]

theorem is_image_of_extname_empty (path : String) (h : extname path = "") :
    Cleanup.is_image path = false := by
  simp only [Cleanup.is_image, h]
  decide

theorem no_dot_of_lower (l : List Char)
    (h : ∀ x ∈ l.map Char.toLower, x ≠ '.' ∧ x ≠ '/') : ∀ x ∈ l, x ≠ '.' ∧ x ≠ '/' := by
  intro x hx
  have hm := h (Char.toLower x) (List.mem_map_of_mem _ hx)
  constructor
  · rintro rfl; exact hm.1 (by decide)
  · rintro rfl; exact hm.2 (by decide)

/-- An image path `base ++ "." ++ ext` has a recognised extension, whatever
`base` is. -/
theorem is_image_dot_ext_imp (base ext : String)
    (hext : ∀ x ∈ ext.data, x ≠ '.' ∧ x ≠ '/')
    (h : Cleanup.is_image (base ++ "." ++ ext) = true) :
    (⟨ext.data.map Char.toLower⟩ : String) ∈ ["png", "jpg", "jpeg", "gif", "webp", "avif"] := by
  rcases extname_dot_ext_cases base ext hext with h0 | h1
  · rw [is_image_of_extname_empty _ h0] at h
    exact absurd h (by decide)
  · rw [is_image_of_extname _ _ h1] at h
    simpa using h

theorem is_image_dot_ext_iff (base ext : String) (c : Char)
    (hbase : base.data.getLast? = some c) (hc : c ≠ '/')
    (hext : ∀ x ∈ ext.data, x ≠ '.' ∧ x ≠ '/') :
    Cleanup.is_image (base ++ "." ++ ext) = true ↔
      (⟨ext.data.map Char.toLower⟩ : String) ∈ ["png", "jpg", "jpeg", "gif", "webp", "avif"] := by
  constructor
  · exact is_image_dot_ext_imp base ext hext
  · intro h
    have hne : ext.data ≠ [] := by
      intro h0
      rw [h0] at h
      exact absurd h (by decide)
    rw [is_image_of_extname _ _ (extname_dot_ext base ext c hbase hc hext hne)]
    simpa using h

theorem is_image_svg_variant (base ext : String)
    (h : ext.data.map Char.toLower = ['s', 'v', 'g']) :
    Cleanup.is_image (base ++ "." ++ ext) = false := by
  have hext : ∀ x ∈ ext.data, x ≠ '.' ∧ x ≠ '/' := by
    apply no_dot_of_lower
    rw [h]
    decide
  cases hi : Cleanup.is_image (base ++ "." ++ ext) with
  | false => rfl
  | true =>
    have := is_image_dot_ext_imp base ext hext hi
    rw [h] at this
    exact absurd this (by decide)

/-- C8: `is_image` holds exactly when the lowercased extension, without its
dot, is one of png, jpg, jpeg, gif, webp, avif.  On a path `path.ext`, where
`path` ends in a character other than the separator and `ext` has neither dot
nor separator, it holds exactly when `ext`, its letters lowercased, is one of
the six names, so it is the same for two spellings of `ext` that differ only by
letter case.  It is false when the lowercased extension is `.svg`, on every
path that ends in `.svg` in any letter case, and when there is no extension.
The copies of the two scripts agree. -/
theorem is_image_iff_recognised_extension (path : Path) :
    (Cleanup.is_image path = true ↔
      slice1 (toLowerCase (extname path)) ∈ ["png", "jpg", "jpeg", "gif", "webp", "avif"]) ∧
    (∀ (ext : String) (c : Char), path.data.getLast? = some c → c ≠ '/' →
      (∀ x ∈ ext.data, x ≠ '.' ∧ x ≠ '/') →
      (Cleanup.is_image (path ++ "." ++ ext) = true ↔
        (⟨ext.data.map Char.toLower⟩ : String) ∈
          ["png", "jpg", "jpeg", "gif", "webp", "avif"])) ∧
    (∀ (ext other : String) (c : Char), path.data.getLast? = some c → c ≠ '/' →
      (∀ x ∈ ext.data, x ≠ '.' ∧ x ≠ '/') → (∀ x ∈ other.data, x ≠ '.' ∧ x ≠ '/') →
      ext.data.map Char.toLower = other.data.map Char.toLower →
      Cleanup.is_image (path ++ "." ++ ext) = Cleanup.is_image (path ++ "." ++ other)) ∧
    (toLowerCase (extname path) = ".svg" → Cleanup.is_image path = false) ∧
    (∀ ext : String, ext.data.map Char.toLower = ['s', 'v', 'g'] →
      Cleanup.is_image (path ++ "." ++ ext) = false) ∧
    Cleanup.is_image (path ++ ".svg") = false ∧
    (extname path = "" → Cleanup.is_image path = false) ∧
    (∀ other : Path, toLowerCase (extname other) = toLowerCase (extname path) →
      Cleanup.is_image other = Cleanup.is_image path) ∧
    Optimize.is_image path = Cleanup.is_image path ∧
    (Cleanup.is_image "static/images/photo.png" = true ∧
      Cleanup.is_image "static/images/photo.PNG" = true ∧
      Cleanup.is_image "src/routes/blog/cover.JpEg" = true ∧
      Cleanup.is_image "a.jpg" = true ∧ Cleanup.is_image "a.GIF" = true ∧
      Cleanup.is_image "a.WebP" = true ∧ Cleanup.is_image "a.AVIF" = true ∧
      Cleanup.is_image "static/images/logo.SVG" = false ∧
      Cleanup.is_image "static/images/README" = false ∧
      Cleanup.is_image "static/images/archive.png.bak" = false) := by
  refine ⟨?_, ?_, ?_, ?_, ?_, is_image_svg_suffix path, ?_, ?_, rfl,
    by decide, by decide, by decide, by decide, by decide, by decide, by decide, by decide,
    by decide, by decide⟩
  · simp [Cleanup.is_image]
  · intro ext c hbase hc hext
    exact is_image_dot_ext_iff path ext c hbase hc hext
  · intro ext other c hbase hc hext hother hlow
    have h1 := is_image_dot_ext_iff path ext c hbase hc hext
    have h2 := is_image_dot_ext_iff path other c hbase hc hother
    rw [hlow] at h1
    exact Bool.eq_iff_iff.mpr (h1.trans h2.symm)
  · intro h
    simp only [Cleanup.is_image, h]
    decide
  · intro ext h
    exact is_image_svg_variant path ext h
  · intro h
    exact is_image_of_extname_empty path h
  · intro other h
    simp only [Cleanup.is_image, h]

/-! ## The target path of a conversion -/

/-- C10 at a failing input: for the image `static/images/photo.PNG` the
lowercased extension `.png` does not occur in the path, so the target path is
the input path and `convert_to_webp` returns at the "already webp" test
without touching the disk; for `static/images/shot.png.png` the first `.png`
is replaced, not the final extension. -/
theorem webp_path_misses_final_extension :
    Optimize.is_image "static/images/photo.PNG" = true ∧
    Optimize.webp_path "static/images/photo.PNG" = "static/images/photo.PNG" ∧
    (∀ (C : Codec) (F : Faults) (d : Disk),
      Optimize.convert_to_webp C F "static/images/photo.PNG" d = (.ok (), d)) ∧
    Optimize.webp_path "static/images/shot.png.png" = "static/images/shot.webp.png" := by
  refine ⟨by decide, by decide, ?_, by decide⟩
  intro C F d
  have h1 : toLowerCase (extname "static/images/photo.PNG") = ".png" := by decide
  have h2 : replace "static/images/photo.PNG" ".png" ".webp" = "static/images/photo.PNG" := by
    decide
  simp [Optimize.convert_to_webp, Optimize.convert_to_webp_try, h1, h2, tryCatch]

/-! ## Errors stay inside the file -/

theorem optimize_image_ok (C : Codec) (F : Faults) (file : Path) (d : Disk) :
    Optimize.optimize_image C F file d = (.ok (), (Optimize.optimize_image C F file d).2) := by
  have h := tryCatch_fst (Optimize.optimize_image_try C F file d)
  exact Prod.ext h rfl

/-- The loop over the yielded files calls `optimize_image` on each image
file, in order, and counts it. -/
theorem optimize_files_eq (C : Codec) (F : Faults) (files : List Path) :
    ∀ (n : Nat) (d : Disk),
      Optimize.optimize_files C F files n d =
        (.ok (n + files.countP Optimize.is_image),
          (files.filter Optimize.is_image).foldl
            (fun disk f => (Optimize.optimize_image C F f disk).2) d) := by
  induction files with
  | nil => intro n d; simp [Optimize.optimize_files]
  | cons file rest ih =>
    intro n d
    by_cases himg : Optimize.is_image file = true
    · rw [Optimize.optimize_files, if_pos himg, optimize_image_ok]
      simp only [ih, List.countP_cons_of_pos _ _ himg, List.filter_cons_of_pos himg,
        List.foldl_cons]
      congr 2
      omega
    · rw [Optimize.optimize_files, if_neg himg, ih, List.countP_cons_of_neg _ _ himg,
        List.filter_cons_of_neg himg]

/-- The nested loops of `main` are the loop over the files of the existing
directories. -/
theorem optimize_dirs_eq (C : Codec) (F : Faults) (dirs : List (Bool × List Path)) :
    ∀ (n : Nat) (d : Disk),
      Optimize.optimize_dirs C F dirs n d =
        Optimize.optimize_files C F (Optimize.files_of_dirs dirs) n d := by
  induction dirs with
  | nil => intro n d; simp [Optimize.optimize_dirs, Optimize.files_of_dirs, Optimize.optimize_files]
  | cons x rest ih =>
    intro n d
    rcases x with ⟨present, files⟩
    cases present with
    | false => simp [Optimize.optimize_dirs, Optimize.files_of_dirs, ih]
    | true =>
      rw [Optimize.optimize_dirs]
      simp only [Bool.not_true, Bool.false_eq_true, if_false, Optimize.files_of_dirs, if_true]
      rw [optimize_files_eq C F files n d]
      simp only [ih, optimize_files_eq, List.countP_append, List.filter_append,
        List.foldl_append]
      congr 2
      omega

/-- C6, as stated, fails: in a directory that lists a dangling link before
the image `b.png`, the throw of `statSync` in the walk ends the traversal, the
loop of `main` receives no file and finishes with a count of 0; `b.png`, on
which no call throws, is never passed to `optimize_image`. -/
theorem optimize_loop_stops_at_stale_link :
    Optimize.is_image "static/images/b.png" = true ∧
    "static/images/b.png" ∈ filePaths "static/images" staleLinkTree ∧
    staleLinkFaults.stat "static/images/b.png" = false ∧
    staleLinkFaults.unlink "static/images/b.png" = false ∧
    Optimize.files_of_dirs
      [(true, Optimize.walk_directory staleLinkFaults "static/images" staleLinkTree)] = [] ∧
    (Optimize.optimize_dirs smallWebpCodec staleLinkFaults
      [(true, Optimize.walk_directory staleLinkFaults "static/images" staleLinkTree)] 0
      (diskOf "static/images" staleLinkTree)).1 = .ok 0 := by
  refine ⟨by decide, by decide, by decide, by decide, by decide, ?_⟩
  rfl

/-- C6, amended: whatever the codec and the filesystem calls do,
`optimize_image` and `convert_to_webp` complete without raising, so the loops
of `main` run to their end and call `optimize_image`, in order, on every image
file that the walks of the existing directories yield, counting each; this
holds in particular for the files that `walk_directory` yields on a tree. -/
theorem optimize_never_raises (C : Codec) (F : Faults) (file : Path) (d : Disk)
    (files : List Path) (dirs : List (Bool × List Path)) (dir : Path) (l : Listing) (n : Nat) :
    (Optimize.optimize_image C F file d).1 = .ok () ∧
    (Optimize.convert_to_webp C F file d).1 = .ok () ∧
    Optimize.optimize_files C F files n d =
      (.ok (n + files.countP Optimize.is_image),
        (files.filter Optimize.is_image).foldl
          (fun disk f => (Optimize.optimize_image C F f disk).2) d) ∧
    Optimize.optimize_dirs C F dirs n d =
      Optimize.optimize_files C F (Optimize.files_of_dirs dirs) n d ∧
    Optimize.optimize_dirs C F [(true, Optimize.walk_directory F dir l)] n d =
      (.ok (n + (Optimize.walk_directory F dir l).countP Optimize.is_image),
        ((Optimize.walk_directory F dir l).filter Optimize.is_image).foldl
          (fun disk f => (Optimize.optimize_image C F f disk).2) d) := by
  refine ⟨tryCatch_fst _, tryCatch_fst _, optimize_files_eq C F files n d,
    optimize_dirs_eq C F dirs n d, ?_⟩
  rw [optimize_dirs_eq, optimize_files_eq]
  simp [Optimize.files_of_dirs]

/-! ## Conversion to WebP -/

/-- Disk left by `convert_to_webp` once the candidate `cand` has been written
and the calls after the write do not throw. -/
theorem convert_after_write (C : Codec) (F : Faults) (file : Path) (d : Disk)
    (info : Meta) (cand orig : Bytes)
    (hsvg : toLowerCase (extname file) ≠ ".svg")
    (hpath : Optimize.webp_path file ≠ file)
    (hmeta : C.metadata d file = .ok info)
    (hw : info.width ≠ 0) (hh : info.height ≠ 0)
    (hwrite : C.toFile d file Optimize.resize_config "webp" 80 (Optimize.webp_path file)
      = .written cand)
    (horig : d file = some orig)
    (hstat : F.stat file = false ∧ F.stat (Optimize.webp_path file) = false)
    (hunlink : F.unlink file = false ∧ F.unlink (Optimize.webp_path file) = false) :
    (Optimize.convert_to_webp C F file d).2 =
      if 10 * cand.length < 7 * orig.length
      then ((d.write (Optimize.webp_path file) cand).remove file)
      else ((d.write (Optimize.webp_path file) cand).remove (Optimize.webp_path file)) := by
  have hpath2 : file ≠ Optimize.webp_path file := fun h => hpath h.symm
  have h1 : (d.write (Optimize.webp_path file) cand) file = some orig := by
    rw [Disk.write_other d cand hpath2, horig]
  have h2 : (d.write (Optimize.webp_path file) cand) (Optimize.webp_path file) = some cand :=
    Disk.write_same _ _ _
  rw [Optimize.convert_to_webp, tryCatch_snd, Optimize.convert_to_webp_try]
  unfold Optimize.webp_path at *
  simp only [hsvg, hpath, if_false, hmeta, hw, hh, or_self, hwrite, runWrite,
    statSync_ok hstat.1 h1, statSync_ok hstat.2 h2]
  by_cases hgate : 10 * cand.length < 7 * orig.length
  · simp only [hgate, if_true, unlinkSync_ok hunlink.1 h1]
  · simp only [hgate, if_false, unlinkSync_ok hunlink.2 h2]

/-- Disk left by `convert_to_webp` when the encoder leaves nothing at the
target path: the disk is unchanged. -/
theorem convert_to_webp_unchanged_of_no_write (C : Codec) (F : Faults) (file : Path) (d : Disk)
    (hclean : ∀ err bytes,
      C.toFile d file Optimize.resize_config "webp" 80 (Optimize.webp_path file)
        ≠ .failed err (some bytes))
    (hnot : ∀ cand, C.toFile d file Optimize.resize_config "webp" 80 (Optimize.webp_path file)
        ≠ .written cand) :
    (Optimize.convert_to_webp C F file d).2 = d := by
  rw [Optimize.convert_to_webp, tryCatch_snd, Optimize.convert_to_webp_try]
  unfold Optimize.webp_path at *
  by_cases hsvg : toLowerCase (extname file) = ".svg"
  · simp [hsvg]
  by_cases hpath : replace file (toLowerCase (extname file)) ".webp" = file
  · simp [hsvg, hpath]
  simp only [hsvg, hpath, if_false]
  cases hm : C.metadata d file with
  | error err => rfl
  | ok info =>
    by_cases hwh : info.width = 0 ∨ info.height = 0
    · simp [hwh]
    simp only [hwh, if_false]
    cases hwr : C.toFile d file Optimize.resize_config "webp" 80
        (replace file (toLowerCase (extname file)) ".webp") with
    | written cand => exact absurd hwr (hnot cand)
    | failed err left =>
      cases left with
      | none => rfl
      | some bytes => exact absurd hwr (hclean err bytes)

/-- C1, as stated, fails: on a disk holding `logo.svg` and `logo.webp`,
`convert_to_webp("static/images/logo.svg")` returns at the SVG test and both
paths still exist. -/
theorem convert_to_webp_keeps_both_for_svg :
    Optimize.webp_path "static/images/logo.svg" = "static/images/logo.webp" ∧
    existsSync (Optimize.convert_to_webp smallWebpCodec noFaults "static/images/logo.svg"
      logoDisk).2 "static/images/logo.svg" = true ∧
    existsSync (Optimize.convert_to_webp smallWebpCodec noFaults "static/images/logo.svg"
      logoDisk).2 "static/images/logo.webp" = true := by
  decide

/-- C1, amended: when the input file exists, the target path computed by
`convert_to_webp`, if it is not the input path, does not exist, the encoder
leaves nothing at the target when it fails, and `statSync` and `unlinkSync` do
not throw on the two paths, then after `convert_to_webp` exactly one of the
input path and the target path exists. -/
theorem convert_leaves_exactly_one (C : Codec) (F : Faults) (file : Path) (d : Disk)
    (hfile : existsSync d file = true)
    (hnew : Optimize.webp_path file ≠ file → existsSync d (Optimize.webp_path file) = false)
    (hclean : ∀ err bytes,
      C.toFile d file Optimize.resize_config "webp" 80 (Optimize.webp_path file)
        ≠ .failed err (some bytes))
    (hstat : F.stat file = false ∧ F.stat (Optimize.webp_path file) = false)
    (hunlink : F.unlink file = false ∧ F.unlink (Optimize.webp_path file) = false) :
    (existsSync (Optimize.convert_to_webp C F file d).2 file = true ∧
      (Optimize.webp_path file ≠ file →
        existsSync (Optimize.convert_to_webp C F file d).2 (Optimize.webp_path file) = false)) ∨
    (existsSync (Optimize.convert_to_webp C F file d).2 file = false ∧
      existsSync (Optimize.convert_to_webp C F file d).2 (Optimize.webp_path file) = true) := by
  by_cases hwritten : ∃ cand,
      C.toFile d file Optimize.resize_config "webp" 80 (Optimize.webp_path file) = .written cand
  · obtain ⟨cand, hwr⟩ := hwritten
    by_cases hsvg : toLowerCase (extname file) = ".svg"
    · left
      have : (Optimize.convert_to_webp C F file d).2 = d := by
        rw [Optimize.convert_to_webp, tryCatch_snd, Optimize.convert_to_webp_try]
        simp [hsvg]
      rw [this]; exact ⟨hfile, hnew⟩
    by_cases hpath : Optimize.webp_path file = file
    · left
      have : (Optimize.convert_to_webp C F file d).2 = d := by
        rw [Optimize.convert_to_webp, tryCatch_snd, Optimize.convert_to_webp_try]
        unfold Optimize.webp_path at hpath
        simp [hsvg, hpath]
      rw [this]; exact ⟨hfile, hnew⟩
    cases hm : C.metadata d file with
    | error err =>
      left
      have : (Optimize.convert_to_webp C F file d).2 = d := by
        rw [Optimize.convert_to_webp, tryCatch_snd, Optimize.convert_to_webp_try]
        unfold Optimize.webp_path at hpath
        simp [hsvg, hpath, hm]
      rw [this]; exact ⟨hfile, hnew⟩
    | ok info =>
      by_cases hwh : info.width = 0 ∨ info.height = 0
      · left
        have : (Optimize.convert_to_webp C F file d).2 = d := by
          rw [Optimize.convert_to_webp, tryCatch_snd, Optimize.convert_to_webp_try]
          unfold Optimize.webp_path at hpath
          simp [hsvg, hpath, hm, hwh]
        rw [this]; exact ⟨hfile, hnew⟩
      · have hw : info.width ≠ 0 := fun h => hwh (Or.inl h)
        have hh : info.height ≠ 0 := fun h => hwh (Or.inr h)
        obtain ⟨orig, horig⟩ := Option.isSome_iff_exists.mp hfile
        have hpath2 : file ≠ Optimize.webp_path file := fun h => hpath h.symm
        rw [convert_after_write C F file d info cand orig hsvg hpath hm hw hh hwr horig
          hstat hunlink]
        by_cases hgate : 10 * cand.length < 7 * orig.length
        · right
          simp [hgate, existsSync, Disk.remove_other _ hpath]
        · left
          simp [hgate, existsSync, Disk.remove_other _ hpath2, Disk.write_other _ _ hpath2, horig]
  · left
    have hnot : ∀ cand,
        C.toFile d file Optimize.resize_config "webp" 80 (Optimize.webp_path file)
          ≠ .written cand := fun cand h => hwritten ⟨cand, h⟩
    rw [convert_to_webp_unchanged_of_no_write C F file d hclean hnot]
    exact ⟨hfile, hnew⟩

/-- Witness of C1, amended: `static/images/hero.png` exists alone, the codec
writes a candidate and no call throws. -/
theorem convert_leaves_exactly_one_witness :
    existsSync heroDisk "static/images/hero.png" = true ∧
    existsSync heroDisk (Optimize.webp_path "static/images/hero.png") = false ∧
    ((existsSync (Optimize.convert_to_webp smallWebpCodec noFaults "static/images/hero.png"
          heroDisk).2 "static/images/hero.png" = true ∧
        (Optimize.webp_path "static/images/hero.png" ≠ "static/images/hero.png" →
          existsSync (Optimize.convert_to_webp smallWebpCodec noFaults "static/images/hero.png"
            heroDisk).2 (Optimize.webp_path "static/images/hero.png") = false)) ∨
      (existsSync (Optimize.convert_to_webp smallWebpCodec noFaults "static/images/hero.png"
          heroDisk).2 "static/images/hero.png" = false ∧
        existsSync (Optimize.convert_to_webp smallWebpCodec noFaults "static/images/hero.png"
          heroDisk).2 (Optimize.webp_path "static/images/hero.png") = true)) :=
  ⟨by decide, by decide,
    convert_leaves_exactly_one smallWebpCodec noFaults "static/images/hero.png" heroDisk
      (by decide) (fun _ => by decide) (fun err bytes h => by simp [smallWebpCodec] at h)
      ⟨rfl, rfl⟩ ⟨rfl, rfl⟩⟩

/-- C2, as stated, fails: the 3-byte candidate passes the gate against the
10-byte original, but `unlinkSync` throws on the original, so the candidate is
kept and the original is not deleted. -/
theorem locked_original_survives_gate :
    (10 * [1, 2, 3].length < 7 * [1, 2, 3, 4, 5, 6, 7, 8, 9, 10].length) ∧
    heroDisk "static/images/hero.png" = some [1, 2, 3, 4, 5, 6, 7, 8, 9, 10] ∧
    Optimize.webp_path "static/images/hero.png" = "static/images/hero.webp" ∧
    smallWebpCodec.toFile heroDisk "static/images/hero.png" Optimize.resize_config "webp" 80
      "static/images/hero.webp" = .written [1, 2, 3] ∧
    (Optimize.convert_to_webp smallWebpCodec lockedHeroFaults "static/images/hero.png"
      heroDisk).2 "static/images/hero.webp" = some [1, 2, 3] ∧
    (Optimize.convert_to_webp smallWebpCodec lockedHeroFaults "static/images/hero.png"
      heroDisk).2 "static/images/hero.png" = some [1, 2, 3, 4, 5, 6, 7, 8, 9, 10] := by
  decide

/-- C2, amended: when `convert_to_webp` has written the candidate and the
`statSync` and `unlinkSync` calls that follow do not throw, the candidate is
kept and the original deleted exactly when `10 * candidateSize < 7 *
originalSize`; otherwise the candidate is removed and the original has the
content it had when `convert_to_webp` was called. -/
theorem convert_gate (C : Codec) (F : Faults) (file : Path) (d : Disk)
    (info : Meta) (cand orig : Bytes)
    (hsvg : toLowerCase (extname file) ≠ ".svg")
    (hpath : Optimize.webp_path file ≠ file)
    (hmeta : C.metadata d file = .ok info)
    (hw : info.width ≠ 0) (hh : info.height ≠ 0)
    (hwrite : C.toFile d file Optimize.resize_config "webp" 80 (Optimize.webp_path file)
      = .written cand)
    (horig : d file = some orig)
    (hstat : F.stat file = false ∧ F.stat (Optimize.webp_path file) = false)
    (hunlink : F.unlink file = false ∧ F.unlink (Optimize.webp_path file) = false) :
    (((Optimize.convert_to_webp C F file d).2 (Optimize.webp_path file) = some cand ∧
        (Optimize.convert_to_webp C F file d).2 file = none)
      ↔ 10 * cand.length < 7 * orig.length) ∧
    (¬ 10 * cand.length < 7 * orig.length →
      (Optimize.convert_to_webp C F file d).2 (Optimize.webp_path file) = none ∧
      (Optimize.convert_to_webp C F file d).2 file = some orig) := by
  have hpath2 : file ≠ Optimize.webp_path file := fun h => hpath h.symm
  rw [convert_after_write C F file d info cand orig hsvg hpath hmeta hw hh hwrite horig
    hstat hunlink]
  by_cases hgate : 10 * cand.length < 7 * orig.length
  · simp [hgate, Disk.remove_other _ hpath]
  · simp [hgate, Disk.remove_other _ hpath2, Disk.write_other _ _ hpath2, horig]

/-- Witness of C2, amended: the 3-byte candidate of the 10-byte
`static/images/hero.png` is kept and the original deleted. -/
theorem convert_gate_witness :
    ((Optimize.convert_to_webp smallWebpCodec noFaults "static/images/hero.png" heroDisk).2
          (Optimize.webp_path "static/images/hero.png") = some [1, 2, 3] ∧
        (Optimize.convert_to_webp smallWebpCodec noFaults "static/images/hero.png" heroDisk).2
          "static/images/hero.png" = none)
      ↔ 10 * [1, 2, 3].length < 7 * [1, 2, 3, 4, 5, 6, 7, 8, 9, 10].length :=
  (convert_gate smallWebpCodec noFaults "static/images/hero.png" heroDisk ⟨1600, 1200, some "png"⟩
    [1, 2, 3] [1, 2, 3, 4, 5, 6, 7, 8, 9, 10] (by decide) (by decide) rfl (by decide) (by decide)
    rfl (by decide) ⟨rfl, rfl⟩ ⟨rfl, rfl⟩).1

/-! ## Re-encoding in place -/

/-- C7, as stated, fails: `optimize_image` gives the path of the original to
the encoder as its output; with an encoder that fails after truncating its
output, the original `static/images/hero.png` is left empty. -/
theorem optimize_image_truncates_on_failure :
    truncatingCodec.toFile heroDisk "static/images/hero.png" Optimize.resize_config "png" 80
      "static/images/hero.png" = .failed ⟨"write failed"⟩ (some []) ∧
    heroDisk "static/images/hero.png" = some [1, 2, 3, 4, 5, 6, 7, 8, 9, 10] ∧
    (Optimize.optimize_image truncatingCodec noFaults "static/images/hero.png" heroDisk).2
      "static/images/hero.png" = some [] := by
  decide

/-- C7, amended: when the encode step of `optimize_image` fails, the function
completes and does nothing more; the disk is unchanged when the encoder failed
before writing to its output, and otherwise the original path holds what the
encoder left there. -/
theorem optimize_image_encode_failure (C : Codec) (F : Faults) (file : Path) (d : Disk)
    (info : Meta) (format : String) (quality : Nat) (orig : Bytes) (err : JsError)
    (left : Option Bytes)
    (hsvg : toLowerCase (extname file) ≠ ".svg")
    (hmeta : C.metadata d file = .ok info)
    (hformat : info.format = some format)
    (hne : format ≠ "")
    (hquality : Optimize.config format = some quality)
    (horig : d file = some orig)
    (hstat : F.stat file = false)
    (hfail : C.toFile d file Optimize.resize_config format quality file = .failed err left) :
    (Optimize.optimize_image C F file d).1 = .ok () ∧
    (left = none → (Optimize.optimize_image C F file d).2 = d) ∧
    (∀ bytes, left = some bytes →
      (Optimize.optimize_image C F file d).2 = d.write file bytes) := by
  refine ⟨tryCatch_fst _, ?_, ?_⟩
  · intro hl
    subst hl
    rw [Optimize.optimize_image, tryCatch_snd, Optimize.optimize_image_try]
    simp [hsvg, hmeta, hformat, hne, hquality, statSync_ok hstat horig, hfail, runWrite]
  · intro bytes hl
    subst hl
    rw [Optimize.optimize_image, tryCatch_snd, Optimize.optimize_image_try]
    simp [hsvg, hmeta, hformat, hne, hquality, statSync_ok hstat horig, hfail, runWrite]

/-- Witness of C7, amended: with an encoder that fails before writing,
`optimize_image` leaves the disk holding `static/images/hero.png` unchanged. -/
theorem optimize_image_encode_failure_witness :
    rejectingCodec.toFile heroDisk "static/images/hero.png" Optimize.resize_config "png" 80
      "static/images/hero.png" = .failed ⟨"unsupported image"⟩ none ∧
    (Optimize.optimize_image rejectingCodec noFaults "static/images/hero.png" heroDisk).2
      = heroDisk :=
  ⟨rfl,
    (optimize_image_encode_failure rejectingCodec noFaults "static/images/hero.png" heroDisk
      ⟨1600, 1200, some "png"⟩ "png" 80 [1, 2, 3, 4, 5, 6, 7, 8, 9, 10] ⟨"unsupported image"⟩ none
      (by decide) rfl rfl (by decide) (by decide) (by decide) rfl rfl).2.1 rfl⟩

end AssetBudget
